import Mathlib

/-!
Verification of the voxel-addressing and segmentation-colorization engine of
`cloudblender.py`: the seeded hash colorizer, the block colorization routine,
resolution alignment, coordinate round trips, the slice-emission loop, the
cube composition, and the image-update re-sync check.  All machine integers
are modelled as `Nat`/`Int` with explicit masks, Python float arithmetic on
the color path is modelled in exact rational arithmetic, and the uint64 to
float64 cast in the block colorizer is modelled exactly as round to nearest,
ties to even.
-/

namespace Cloudblender

/-- Embedding of Python `int()` applied to a rational number: truncation
toward zero (numerator T-divided by denominator). -/
def int_trunc (q : ℚ) : Int := Int.tdiv q.num (q.den : Int)

/-- Embedding of the Python standard library `colorsys.hsv_to_rgb`, in exact
rational arithmetic.  `rgb_from_segment_id` in the source calls this. -/
def hsv_to_rgb (h s v : ℚ) : ℚ × ℚ × ℚ :=
  if s = 0 then (v, v, v)
  else
    let i : Int := int_trunc (h * 6)
    let f : ℚ := h * 6 - (i : ℚ)
    let p : ℚ := v * (1 - s)
    let q : ℚ := v * (1 - s * f)
    let t : ℚ := v * (1 - s * (1 - f))
    let im : Int := Int.emod i 6
    if im = 0 then (v, t, p)
    else if im = 1 then (q, v, p)
    else if im = 2 then (p, v, t)
    else if im = 3 then (v, p, q)
    else if im = 4 then (t, v, q)
    else (p, q, v)

/-- Embedding of `hash_function` from `src/cloudblender.py` (a modified
murmur hash, the port of neuroglancer's `hashCombine`).  Python integers are
unbounded, hence `Nat` with the explicit `&&& 0xFFFFFFFF` masks of the
source. -/
def hash_function (state value : Nat) : Nat :=
  let k1 : Nat := 0xCC9E2D51
  let k2 : Nat := 0x1B873593
  let state1 := state &&& 0xFFFFFFFF
  let value1 := (value * k1) &&& 0xFFFFFFFF
  let value2 := ((value1 <<< 15) ||| (value1 >>> 17)) &&& 0xFFFFFFFF
  let value3 := (value2 * k2) &&& 0xFFFFFFFF
  let state2 := (state1 ^^^ value3) &&& 0xFFFFFFFF
  let state3 := ((state2 <<< 13) ||| (state2 >>> 19)) &&& 0xFFFFFFFF
  (state3 * 5 + 0xE6546B64) &&& 0xFFFFFFFF

/-- Embedding of `rgb_from_segment_id` from `src/cloudblender.py`. -/
def rgb_from_segment_id (color_seed segment_id : Nat) : ℚ × ℚ × ℚ :=
  let result := hash_function color_seed segment_id
  let newvalue := segment_id >>> 32
  let result2 := hash_function result newvalue
  let c0 : ℚ := ((result2 &&& 0xFF : Nat) : ℚ) / 255
  let c1 : ℚ := (((result2 >>> 8) &&& 0xFF : Nat) : ℚ) / 255
  hsv_to_rgb c0 (1/2 + 1/2 * c1) 1

/-- Spec-side definition: rotate a 32-bit word left by `n` bits. -/
def rotl32 (x n : Nat) : Nat := ((x <<< n) ||| (x >>> (32 - n))) % 0x100000000

/-- Spec-side definition of `mix32`, following the specification's words:
multiply by `0xCC9E2D51`, rotate-left 15, multiply by `0x1B873593`, xor into
state, rotate-left 13, multiply by 5 and add `0xE6546B64`, all modulo 2^32. -/
def spec_mix32 (state value : Nat) : Nat :=
  let value1 := (value * 0xCC9E2D51) % 0x100000000
  let value2 := rotl32 value1 15
  let value3 := (value2 * 0x1B873593) % 0x100000000
  let state1 := state ^^^ value3
  let state2 := rotl32 state1 13
  (state2 * 5 + 0xE6546B64) % 0x100000000

/-- Spec-side definition of `color_for_id`: split the id into low and high
32-bit halves, mix both into the seed, derive hue and saturation bytes and
convert through HSV. -/
def spec_color_for_id (seed id : Nat) : ℚ × ℚ × ℚ :=
  let low := id &&& 0xFFFFFFFF
  let high := id >>> 32
  let h2 := spec_mix32 (spec_mix32 seed low) high
  let c0 : ℚ := ((h2 &&& 0xFF : Nat) : ℚ) / 255
  let c1 : ℚ := (((h2 >>> 8) &&& 0xFF : Nat) : ℚ) / 255
  hsv_to_rgb c0 (1/2 + 1/2 * c1) 1

theorem mask_eq (x : Nat) : x &&& 0xFFFFFFFF = x % 0x100000000 := by
  have h := Nat.and_pow_two_sub_one_eq_mod x 32
  norm_num at h
  exact h

theorem hash_function_lt (state value : Nat) : hash_function state value < 0x100000000 := by
  show (_ &&& 0xFFFFFFFF) < 0x100000000
  rw [mask_eq]
  exact Nat.mod_lt _ (by norm_num)

theorem hash_function_mod_value (state value : Nat) :
    hash_function state value = hash_function state (value % 0x100000000) := by
  simp only [hash_function, mask_eq]
  rw [Nat.mul_mod value, Nat.mul_mod (value % 0x100000000),
    Nat.mod_mod_of_dvd value (dvd_refl 0x100000000)]

theorem hash_function_eq_spec_mix32 (state value : Nat) (hs : state < 0x100000000) :
    hash_function state value = spec_mix32 state value := by
  have hmod : state % 0x100000000 = state := Nat.mod_eq_of_lt hs
  have hxor : ∀ v : Nat, v < 0x100000000 →
      (state ^^^ v) % 0x100000000 = state ^^^ v := by
    intro v hv
    refine Nat.mod_eq_of_lt ?_
    have h32 : (0x100000000 : Nat) = 2 ^ 32 := by norm_num
    rw [h32] at hs hv ⊢
    exact Nat.xor_lt_two_pow hs hv
  simp only [hash_function, spec_mix32, rotl32, mask_eq, hmod]
  norm_num
  rw [hxor _ (Nat.mod_lt _ (by norm_num))]

theorem hsv_value_one (h s : ℚ) :
    (hsv_to_rgb h s 1).1 = 1 ∨ (hsv_to_rgb h s 1).2.1 = 1 ∨ (hsv_to_rgb h s 1).2.2 = 1 := by
  simp only [hsv_to_rgb]
  split_ifs <;> simp

theorem hsv_ne_black (h s : ℚ) : hsv_to_rgb h s 1 ≠ ((0 : ℚ), 0, 0) := by
  intro hEq
  rcases hsv_value_one h s with h1 | h1 | h1 <;> rw [hEq] at h1 <;> norm_num at h1

theorem rgb_from_segment_id_ne_black (seed id : Nat) :
    rgb_from_segment_id seed id ≠ ((0 : ℚ), 0, 0) := by
  simp only [rgb_from_segment_id]
  exact hsv_ne_black _ _

/-- An RGB triple, in exact rational arithmetic. -/
abbrev Rgb : Type := ℚ × ℚ × ℚ

/-- A 3-D block of segmentation IDs (nested lists; Python uint64 values as
`Nat`). -/
abbrev SegBlock : Type := List (List (List Nat))

/-- All voxel values of a block, flattened. -/
def blockVoxels (b : SegBlock) : List Nat := (b.map List.flatten).flatten

/-- Insertion of a value into an ascending list (helper for `uniqueIds`). -/
def insertSorted (n : Nat) : List Nat → List Nat
  | [] => [n]
  | m :: ms => if n ≤ m then n :: m :: ms else m :: insertSorted n ms

/-- Ascending insertion sort (helper for `uniqueIds`: `np.unique` returns
its distinct values sorted, which fixes the insertion order of the colormap
dict and hence which of two float64-colliding keys wins the remap). -/
def sortNat (l : List Nat) : List Nat := l.foldr insertSorted []

/-- Embedding of `np.unique(seg)`: the distinct IDs present in the block,
sorted ascending. -/
def uniqueIds (b : SegBlock) : List Nat := sortNat (blockVoxels b).dedup

theorem mem_insertSorted {a n : Nat} {l : List Nat} :
    a ∈ insertSorted n l ↔ a = n ∨ a ∈ l := by
  induction l with
  | nil => simp [insertSorted]
  | cons m ms ih =>
    simp only [insertSorted]
    split
    · simp
    · simp only [List.mem_cons, ih]
      tauto

theorem mem_sortNat {a : Nat} {l : List Nat} : a ∈ sortNat l ↔ a ∈ l := by
  induction l with
  | nil => simp [sortNat]
  | cons m ms ih =>
    show a ∈ insertSorted m (sortNat ms) ↔ _
    rw [mem_insertSorted]
    simp [ih]

theorem mem_uniqueIds {v : Nat} {b : SegBlock} :
    v ∈ uniqueIds b ↔ v ∈ blockVoxels b := by
  rw [uniqueIds, mem_sortNat, List.mem_dedup]

/-- Spacing of consecutive float64 values at the magnitude of `n`: 1 below
2^53, and 2^(e+1) on the binade starting at 2^(53+e).  The bounded scan
covers every input below 2^65, in particular the whole uint64 ID range. -/
def f64_ulp (n : Nat) : Nat :=
  (List.range 12).foldl (fun acc e => if 2 ^ (53 + e) ≤ n then 2 ^ (e + 1) else acc) 1

/-- Embedding of numpy's `astype(float)` applied to a uint64 value (line
1545 of the source): round to the nearest float64-representable integer,
ties to even.  Exact below 2^53; above that, distinct IDs can merge. -/
def f64_cast (n : Nat) : Nat :=
  let u := f64_ulp n
  let q := n / u
  let r := n % u
  if 2 * r < u then q * u
  else if u < 2 * r then (q + 1) * u
  else if q % 2 = 0 then q * u else (q + 1) * u

theorem f64_ulp_foldl_const (n : Nat) (hn : n < 2 ^ 53) (l : List Nat) (acc : Nat) :
    l.foldl (fun acc e => if 2 ^ (53 + e) ≤ n then 2 ^ (e + 1) else acc) acc = acc := by
  induction l generalizing acc with
  | nil => rfl
  | cons e l ih =>
    have hne : ¬ 2 ^ (53 + e) ≤ n :=
      Nat.not_le.mpr (lt_of_lt_of_le hn (Nat.pow_le_pow_right (by norm_num) (by omega)))
    rw [List.foldl_cons, if_neg hne]
    exact ih acc

theorem f64_cast_small {n : Nat} (hn : n < 2 ^ 53) : f64_cast n = n := by
  have hu : f64_ulp n = 1 := f64_ulp_foldl_const n hn _ 1
  simp [f64_cast, hu, Nat.mod_one, Nat.div_one]

theorem f64_ulp_foldl_pos (n : Nat) (l : List Nat) (acc : Nat) (hacc : 0 < acc) :
    0 < l.foldl (fun acc e => if 2 ^ (53 + e) ≤ n then 2 ^ (e + 1) else acc) acc := by
  induction l generalizing acc with
  | nil => exact hacc
  | cons e l ih =>
    rw [List.foldl_cons]
    split
    · exact ih _ (Nat.two_pow_pos (e + 1))
    · exact ih _ hacc

theorem f64_ulp_foldl_le (n : Nat) (hn : 0 < n) (l : List Nat) (acc : Nat)
    (hacc : acc ≤ n) :
    l.foldl (fun acc e => if 2 ^ (53 + e) ≤ n then 2 ^ (e + 1) else acc) acc ≤ n := by
  induction l generalizing acc with
  | nil => exact hacc
  | cons e l ih =>
    rw [List.foldl_cons]
    split
    · rename_i h
      exact ih _ (le_trans (Nat.pow_le_pow_right (by norm_num) (by omega)) h)
    · exact ih _ hacc

theorem f64_cast_pos {n : Nat} (hn : 0 < n) : 0 < f64_cast n := by
  have hu : 0 < f64_ulp n := f64_ulp_foldl_pos n _ 1 (by norm_num)
  have hun : f64_ulp n ≤ n := f64_ulp_foldl_le n hn _ 1 hn
  have hq : 0 < n / f64_ulp n := Nat.div_pos hun hu
  simp only [f64_cast]
  split
  · exact Nat.mul_pos hq hu
  · split
    · exact Nat.mul_pos (by omega) hu
    · split
      · exact Nat.mul_pos hq hu
      · exact Nat.mul_pos (by omega) hu

theorem f64_cast_eq_zero {n : Nat} : f64_cast n = 0 ↔ n = 0 := by
  constructor
  · intro h
    by_contra hn
    have := f64_cast_pos (Nat.pos_of_ne_zero hn)
    omega
  · rintro rfl
    rfl

/-- Nested map over a 3-D block. -/
def mapBlock {α β : Type} (f : α → β) (b : List (List (List α))) :
    List (List (List β)) :=
  b.map (fun plane => plane.map (fun row => row.map f))

/-- Nested per-level lengths of a 3-D block. -/
def blockShape {α : Type} (b : List (List (List α))) : List (List Nat) :=
  b.map (fun plane => plane.map List.length)

/-- Element lookup in a 3-D block. -/
def blockGet {α : Type} (b : List (List (List α))) (i j k : Nat) : Option α :=
  match b[i]? with
  | some plane =>
    match plane[j]? with
    | some row => row[k]?
    | none => none
  | none => none

/-- Embedding of the colormap dict of `seg_ids_to_colors` as an ordered
association list mirroring Python dict insertion order: the dict
comprehension over the sorted distinct IDs, followed by the assignment
`cmap[0] = (0, 0, 0)` — an in-place value update when 0 is among the IDs,
an appended entry otherwise. -/
def cmap_entries (ids : List Nat) (seed : Nat) : List (Nat × Rgb) :=
  let base := ids.map (fun i => (i, rgb_from_segment_id seed i))
  if 0 ∈ ids then
    base.map (fun p => if p.1 = 0 then (p.1, ((0 : ℚ), (0 : ℚ), (0 : ℚ))) else p)
  else base ++ [(0, ((0 : ℚ), (0 : ℚ), (0 : ℚ)))]

/-- Embedding of `fastremap.remap(segf, table)` for one scalar channel on
the float64-cast block: the integer table keys are cast to the block's
float64 dtype when the internal hash map is built, so entries whose cast
keys coincide overwrite one another in insertion order (the last one wins);
each cast voxel is replaced by the last entry whose cast key equals it, and
a voxel matching no entry makes the remap fail (fastremap raises a KeyError
on missing labels). -/
def remap (b : SegBlock) (entries : List (Nat × ℚ)) : Option (List (List (List ℚ))) :=
  b.mapM (fun plane => plane.mapM (fun row => row.mapM
    (fun x => ((entries.reverse.find? (fun p => f64_cast p.1 == x)).map
      (fun p => p.2)))))

/-- The color the remap passes of `seg_ids_to_colors` assign to the cast
voxel value `x`: the last colormap entry whose float64-cast key equals `x`
(black fallback for the unreachable missing case). -/
def prog_color (entries : List (Nat × Rgb)) (x : Nat) : Rgb :=
  match entries.reverse.find? (fun p => f64_cast p.1 == x) with
  | some p => p.2
  | none => ((0 : ℚ), (0 : ℚ), (0 : ℚ))

def zip3Row : List ℚ → List ℚ → List ℚ → List Rgb
  | x :: xs, y :: ys, z :: zs => (x, y, z) :: zip3Row xs ys zs
  | _, _, _ => []

def zip3Plane : List (List ℚ) → List (List ℚ) → List (List ℚ) → List (List Rgb)
  | x :: xs, y :: ys, z :: zs => zip3Row x y z :: zip3Plane xs ys zs
  | _, _, _ => []

/-- Embedding of `np.stack([seg_r, seg_g, seg_b], axis=-1)` on three blocks
of identical shape. -/
def zip3Block : List (List (List ℚ)) → List (List (List ℚ)) → List (List (List ℚ)) →
    List (List (List Rgb))
  | x :: xs, y :: ys, z :: zs => zip3Plane x y z :: zip3Block xs ys zs
  | _, _, _ => []

/-- Embedding of `seg_ids_to_colors` from `src/cloudblender.py` (call sites
pass no explicit colormap and leave the seed at its default 1234): collect
the distinct IDs via `np.unique`, build the colormap through
`rgb_from_segment_id`, force the ID-0 entry to black, cast the block to
float64, remap each color channel over the cast block in a single pass and
stack the three channels. -/
def seg_ids_to_colors (seg : SegBlock) (seed : Nat) : Option (List (List (List Rgb))) :=
  let ids := uniqueIds seg
  let cmap := cmap_entries ids seed
  let segf := mapBlock f64_cast seg
  match remap segf (cmap.map (fun p => (p.1, p.2.1))),
        remap segf (cmap.map (fun p => (p.1, p.2.2.1))),
        remap segf (cmap.map (fun p => (p.1, p.2.2.2))) with
  | some r, some g, some b => some (zip3Block r g b)
  | _, _, _ => none

/-- The naive per-voxel colorization described by the spec: ID 0 is black,
any other ID gets its hash color. -/
def voxel_color (seed v : Nat) : Rgb :=
  if v = 0 then (0, 0, 0) else rgb_from_segment_id seed v

/-- Embedding of the color assignment of `CLOUDBLENDER_OP_color_neurons`:
each neuron object with id `id` receives `rgb_from_segment_id(1234, id)`. -/
def color_neurons_color (id : Nat) : Rgb := rgb_from_segment_id 1234 id

theorem mapM_eq_map {α β : Type} (t : α → Option β) (f : α → β) (l : List α)
    (h : ∀ v ∈ l, t v = some (f v)) : l.mapM t = some (l.map f) := by
  induction l with
  | nil => rfl
  | cons a l ih =>
    rw [List.mapM_cons, h a (by simp), ih (fun v hv => h v (by simp [hv]))]
    rfl

theorem mapM_block_eq (b : SegBlock) (t : Nat → Option ℚ) (f : Nat → ℚ)
    (h : ∀ v ∈ blockVoxels b, t v = some (f v)) :
    b.mapM (fun plane => plane.mapM (fun row => row.mapM t)) =
      some (mapBlock f b) := by
  unfold mapBlock
  refine mapM_eq_map _ _ _ (fun plane hplane => ?_)
  refine mapM_eq_map _ _ _ (fun row hrow => ?_)
  refine mapM_eq_map _ _ _ (fun v hv => ?_)
  refine h v ?_
  unfold blockVoxels
  refine List.mem_flatten_of_mem (List.mem_map_of_mem List.flatten hplane) ?_
  exact List.mem_flatten_of_mem hrow hv

theorem zip3Row_map {α : Type} (l : List α) (f1 f2 f3 : α → ℚ) :
    zip3Row (l.map f1) (l.map f2) (l.map f3) =
      l.map (fun v => (f1 v, f2 v, f3 v)) := by
  induction l with
  | nil => rfl
  | cons a l ih => simp [zip3Row, ih]

theorem zip3Plane_map {α : Type} (p : List (List α)) (f1 f2 f3 : α → ℚ) :
    zip3Plane (p.map (List.map f1)) (p.map (List.map f2)) (p.map (List.map f3)) =
      p.map (List.map (fun v => (f1 v, f2 v, f3 v))) := by
  induction p with
  | nil => rfl
  | cons a p ih => simp [zip3Plane, zip3Row_map, ih]

theorem zip3Block_map {α : Type} (b : List (List (List α))) (f1 f2 f3 : α → ℚ) :
    zip3Block (mapBlock f1 b) (mapBlock f2 b) (mapBlock f3 b) =
      mapBlock (fun v => (f1 v, f2 v, f3 v)) b := by
  induction b with
  | nil => rfl
  | cons a b ih =>
    simp only [mapBlock, List.map_cons] at ih ⊢
    simp [zip3Block, zip3Plane_map, ih]

theorem mapBlock_comp {α β γ : Type} (f : α → β) (g : β → γ)
    (b : List (List (List α))) :
    mapBlock g (mapBlock f b) = mapBlock (fun v => g (f v)) b := by
  simp [mapBlock, List.map_map, Function.comp]

theorem blockVoxels_mapBlock (f : Nat → Nat) (b : SegBlock) :
    blockVoxels (mapBlock f b) = (blockVoxels b).map f := by
  induction b with
  | nil => rfl
  | cons plane b ih =>
    simp only [blockVoxels, mapBlock, List.map_cons, List.flatten_cons,
      List.map_append] at ih ⊢
    rw [ih]
    congr 1
    induction plane with
    | nil => rfl
    | cons row plane ihp =>
      simp only [List.map_cons, List.flatten_cons, List.map_append, ihp]

theorem mapBlock_congr_voxels (f g : Nat → Rgb) (b : SegBlock)
    (h : ∀ v ∈ blockVoxels b, f v = g v) : mapBlock f b = mapBlock g b := by
  unfold mapBlock
  refine List.map_congr_left (fun plane hplane => ?_)
  refine List.map_congr_left (fun row hrow => ?_)
  refine List.map_congr_left (fun v hv => ?_)
  refine h v ?_
  unfold blockVoxels
  refine List.mem_flatten_of_mem (List.mem_map_of_mem List.flatten hplane) ?_
  exact List.mem_flatten_of_mem hrow hv

theorem mem_blockVoxels_of_blockGet {b : SegBlock} {i j k v : Nat}
    (h : blockGet b i j k = some v) : v ∈ blockVoxels b := by
  unfold blockGet at h
  split at h
  · rename_i plane hbi
    split at h
    · rename_i row hpj
      have hv : v ∈ row := List.getElem?_mem h
      have h1 : plane ∈ b := List.getElem?_mem hbi
      have h2 : row ∈ plane := List.getElem?_mem hpj
      unfold blockVoxels
      exact List.mem_flatten_of_mem (List.mem_map_of_mem List.flatten h1)
        (List.mem_flatten_of_mem h2 hv)
    · simp at h
  · simp at h

/-- The normalised shape of the colormap entry list: each id maps to its
`voxel_color`, with the ID-0 entry appended when 0 was not among the ids. -/
def cmap_norm (ids : List Nat) (seed : Nat) : List (Nat × Rgb) :=
  if 0 ∈ ids then ids.map (fun i => (i, voxel_color seed i))
  else ids.map (fun i => (i, voxel_color seed i)) ++ [(0, ((0 : ℚ), (0 : ℚ), (0 : ℚ)))]

theorem cmap_entries_eq (ids : List Nat) (seed : Nat) :
    cmap_entries ids seed = cmap_norm ids seed := by
  simp only [cmap_entries, cmap_norm, List.map_map]
  split
  · refine List.map_congr_left (fun i hi => ?_)
    by_cases h0 : i = 0 <;> simp [Function.comp, voxel_color, h0]
  · rename_i h0
    refine congrArg (fun l => l ++ [(0, ((0 : ℚ), (0 : ℚ), (0 : ℚ)))]) ?_
    refine List.map_congr_left (fun i hi => ?_)
    have hne : i ≠ 0 := fun hh => h0 (hh ▸ hi)
    simp [voxel_color, hne]

theorem cmap_norm_form (ids : List Nat) (seed : Nat) :
    ∀ p ∈ cmap_norm ids seed, (p.1 ∈ ids ∨ p.1 = 0) ∧ p.2 = voxel_color seed p.1 := by
  intro p hp
  unfold cmap_norm at hp
  split at hp
  · obtain ⟨i, hi, rfl⟩ := List.mem_map.mp hp
    exact ⟨Or.inl hi, rfl⟩
  · rcases List.mem_append.mp hp with hp | hp
    · obtain ⟨i, hi, rfl⟩ := List.mem_map.mp hp
      exact ⟨Or.inl hi, rfl⟩
    · simp only [List.mem_singleton] at hp
      subst hp
      exact ⟨Or.inr rfl, by simp [voxel_color]⟩

theorem cmap_norm_key_exists (ids : List Nat) (seed : Nat) (v : Nat)
    (hv : v ∈ ids ∨ v = 0) : ∃ c, (v, c) ∈ cmap_norm ids seed := by
  unfold cmap_norm
  split
  · rename_i h0
    rcases hv with hv | rfl
    · exact ⟨_, List.mem_map_of_mem _ hv⟩
    · exact ⟨_, List.mem_map_of_mem _ h0⟩
  · rcases hv with hv | rfl
    · exact ⟨_, List.mem_append_left _ (List.mem_map_of_mem _ hv)⟩
    · exact ⟨((0 : ℚ), (0 : ℚ), (0 : ℚ)),
        List.mem_append_right _ (List.mem_singleton.mpr rfl)⟩

theorem cmap_find_exists (ids : List Nat) (seed v : Nat) (hv : v ∈ ids ∨ v = 0) :
    ∃ p0, (cmap_entries ids seed).reverse.find?
      (fun p => f64_cast p.1 == f64_cast v) = some p0 := by
  rw [cmap_entries_eq]
  obtain ⟨c, hc⟩ := cmap_norm_key_exists ids seed v hv
  cases hfind : (cmap_norm ids seed).reverse.find?
      (fun p => f64_cast p.1 == f64_cast v) with
  | some p0 => exact ⟨p0, rfl⟩
  | none =>
    exfalso
    rw [List.find?_eq_none] at hfind
    exact hfind (v, c) (List.mem_reverse.mpr hc) (by simp)

theorem channel_table_eq (entries : List (Nat × Rgb)) (f : Rgb → ℚ) (x : Nat)
    (p0 : Nat × Rgb)
    (h : entries.reverse.find? (fun p => f64_cast p.1 == x) = some p0) :
    ((entries.map (fun p => (p.1, f p.2))).reverse.find?
        (fun p => f64_cast p.1 == x)).map (fun p => p.2) = some (f p0.2) := by
  rw [← List.map_reverse, List.find?_map]
  have hcomp : ((fun p : Nat × ℚ => f64_cast p.1 == x) ∘
      (fun p : Nat × Rgb => (p.1, f p.2))) = (fun p => f64_cast p.1 == x) := rfl
  rw [hcomp, h]
  rfl

theorem seg_ids_to_colors_eq_prog (seg : SegBlock) (seed : Nat) :
    seg_ids_to_colors seg seed =
      some (mapBlock
        (fun v => prog_color (cmap_entries (uniqueIds seg) seed) (f64_cast v)) seg) := by
  have hvox : ∀ x ∈ blockVoxels (mapBlock f64_cast seg),
      ∃ p0, (cmap_entries (uniqueIds seg) seed).reverse.find?
          (fun p => f64_cast p.1 == x) = some p0 ∧
        prog_color (cmap_entries (uniqueIds seg) seed) x = p0.2 := by
    intro x hx
    rw [blockVoxels_mapBlock] at hx
    obtain ⟨v, hv, rfl⟩ := List.mem_map.mp hx
    obtain ⟨p0, hp0⟩ := cmap_find_exists (uniqueIds seg) seed v
      (Or.inl (mem_uniqueIds.mpr hv))
    exact ⟨p0, hp0, by simp [prog_color, hp0]⟩
  have hch : ∀ f : Rgb → ℚ,
      remap (mapBlock f64_cast seg)
          ((cmap_entries (uniqueIds seg) seed).map (fun p => (p.1, f p.2))) =
        some (mapBlock
          (fun v => f (prog_color (cmap_entries (uniqueIds seg) seed) (f64_cast v)))
          seg) := by
    intro f
    unfold remap
    refine (mapM_block_eq (mapBlock f64_cast seg) _
      (fun x => f (prog_color (cmap_entries (uniqueIds seg) seed) x)) ?_).trans ?_
    · intro x hx
      obtain ⟨p0, hp0, hpc⟩ := hvox x hx
      rw [channel_table_eq _ f x p0 hp0]
      simp [hpc]
    · rw [mapBlock_comp]
  simp only [seg_ids_to_colors]
  rw [hch (fun c => c.1), hch (fun c => c.2.1), hch (fun c => c.2.2)]
  show some (zip3Block
      (mapBlock (fun v =>
        (prog_color (cmap_entries (uniqueIds seg) seed) (f64_cast v)).1) seg)
      (mapBlock (fun v =>
        (prog_color (cmap_entries (uniqueIds seg) seed) (f64_cast v)).2.1) seg)
      (mapBlock (fun v =>
        (prog_color (cmap_entries (uniqueIds seg) seed) (f64_cast v)).2.2) seg)) = _
  rw [zip3Block_map]

theorem prog_color_small (ids : List Nat) (seed v : Nat) (hv : v ∈ ids)
    (hsmall : ∀ w ∈ ids, w < 2 ^ 53) :
    prog_color (cmap_entries ids seed) (f64_cast v) = voxel_color seed v := by
  obtain ⟨p0, hp0⟩ := cmap_find_exists ids seed v (Or.inl hv)
  have hpred := List.find?_some hp0
  have hmem := List.mem_of_find?_eq_some hp0
  rw [List.mem_reverse, cmap_entries_eq] at hmem
  obtain ⟨hkey, hval⟩ := cmap_norm_form ids seed p0 hmem
  have hkeysmall : p0.1 < 2 ^ 53 := by
    rcases hkey with hk | hk
    · exact hsmall _ hk
    · rw [hk]
      norm_num
  have hveq : p0.1 = v := by
    have h1 : f64_cast p0.1 = f64_cast v := by simpa using hpred
    rw [f64_cast_small hkeysmall, f64_cast_small (hsmall v hv)] at h1
    exact h1
  simp [prog_color, hp0, hval, hveq]

theorem prog_color_zero (ids : List Nat) (seed : Nat) :
    prog_color (cmap_entries ids seed) (f64_cast 0) = ((0 : ℚ), 0, 0) := by
  obtain ⟨p0, hp0⟩ := cmap_find_exists ids seed 0 (Or.inr rfl)
  have hpred := List.find?_some hp0
  have hmem := List.mem_of_find?_eq_some hp0
  rw [List.mem_reverse, cmap_entries_eq] at hmem
  obtain ⟨hkey, hval⟩ := cmap_norm_form ids seed p0 hmem
  have h1 : f64_cast p0.1 = f64_cast 0 := by simpa using hpred
  rw [f64_cast_small (by norm_num : (0 : Nat) < 2 ^ 53)] at h1
  have h0 : p0.1 = 0 := f64_cast_eq_zero.mp h1
  simp [prog_color, hp0, hval, h0, voxel_color]

theorem blockGet_mapBlock {α β : Type} (f : α → β) (b : List (List (List α)))
    (i j k : Nat) :
    blockGet (mapBlock f b) i j k = (blockGet b i j k).map f := by
  unfold blockGet mapBlock
  simp only [List.getElem?_map]
  cases b[i]? with
  | none => rfl
  | some plane =>
    simp only [Option.map_some', List.getElem?_map]
    cases plane[j]? with
    | none => rfl
    | some row =>
      simp only [Option.map_some', List.getElem?_map]

/-- A voxel range: the six bounds `x1, x2, y1, y2, z1, z2` carried by the
operators, each axis half-open. -/
structure VoxelRange where
  x1 : Int
  x2 : Int
  y1 : Int
  y2 : Int
  z1 : Int
  z2 : Int
deriving DecidableEq

/-- Per-axis voxel resolution (nm per voxel), in exact rationals. -/
structure Resolution where
  x : ℚ
  y : ℚ
  z : ℚ
deriving DecidableEq

def Resolution.pos (r : Resolution) : Prop := 0 < r.x ∧ 0 < r.y ∧ 0 < r.z

def VoxelRange.nondeg (r : VoxelRange) : Prop :=
  r.x1 < r.x2 ∧ r.y1 < r.y2 ∧ r.z1 < r.z2

/-- One step of the per-axis widening loops of the source (fetch path lines
557-560 and 584-587, update path lines 1067-1073 and 1145-1149): an axis
whose two bounds coincide gets its upper bound bumped by one voxel. -/
def widen_bound (lo hi : Int) : Int := if lo = hi then lo + 1 else hi

def widen_range (r : VoxelRange) : VoxelRange :=
  ⟨r.x1, widen_bound r.x1 r.x2, r.y1, widen_bound r.y1 r.y2,
   r.z1, widen_bound r.z1 r.z2⟩

inductive AlignError
  | conversionError
deriving DecidableEq

/-- Embedding of `int(bound // ratio)` from the alignment code: the integer
bound is floor-divided by the float ratio and converted back to int.  With a
zero ratio the numpy floor division yields NaN and `int(nan)` raises a
ValueError, modelled as the error case. -/
def floor_div_ratio (v : Int) (r : ℚ) : Except AlignError Int :=
  if r = 0 then Except.error AlignError.conversionError
  else Except.ok ⌊(v : ℚ) / r⌋

/-- Embedding of the image-to-segmentation range alignment shared by the
fetch path (lines 576-587) and the update path (lines 1125-1149): per-axis
ratio `dst/src`, floor division of all six bounds in source order, then the
widening loop. -/
def align_range (src : VoxelRange) (src_res dst_res : Resolution) :
    Except AlignError VoxelRange := do
  let rx := dst_res.x / src_res.x
  let ry := dst_res.y / src_res.y
  let rz := dst_res.z / src_res.z
  let a1 ← floor_div_ratio src.x1 rx
  let a2 ← floor_div_ratio src.x2 rx
  let b1 ← floor_div_ratio src.y1 ry
  let b2 ← floor_div_ratio src.y2 ry
  let c1 ← floor_div_ratio src.z1 rz
  let c2 ← floor_div_ratio src.z2 rz
  return widen_range ⟨a1, a2, b1, b2, c1, c2⟩

/-- Embedding of the REAL-coordinate conversion in `fetch_slices.execute`
(lines 538-546): Python floor division (`//`) of each physical coordinate by
the matching resolution component. -/
def to_voxels (p r : Int × Int × Int) : Int × Int × Int :=
  (Int.fdiv p.1 r.1, Int.fdiv p.2.1 r.2.1, Int.fdiv p.2.2 r.2.2)

/-- Embedding of the conversion of voxel vertices back to physical units in
`create_image_plane` (line 747): elementwise multiplication by the
resolution. -/
def to_physical (v r : Int × Int × Int) : Int × Int × Int :=
  (v.1 * r.1, v.2.1 * r.2.1, v.2.2 * r.2.2)

inductive Axis
  | x
  | y
  | z
deriving DecidableEq

def axis_lo (r : VoxelRange) : Axis → Int
  | Axis.x => r.x1
  | Axis.y => r.y1
  | Axis.z => r.z1

def axis_hi (r : VoxelRange) : Axis → Int
  | Axis.x => r.x2
  | Axis.y => r.y2
  | Axis.z => r.z2

/-- Extent of the fetched data block along the slicing axis: the fetch of
lines 563-567 returns an array whose shape along an axis is the difference
of that axis's two bounds. -/
def shape_along (r : VoxelRange) (a : Axis) : Nat :=
  (axis_hi r a - axis_lo r a).toNat

/-- Embedding of the slice-emission loop of `fetch_slices.execute` (lines
606-641): one `(image_slice, color_slice_or_none, depth)` triple per index
of the block's extent along the slicing axis; the color slice, when the
overlay is active, is the segmentation cross-section at `int(i * ratio)`,
and the depth is the axis lower bound plus the index. -/
def slice_triples {α : Type} (r : VoxelRange) (a : Axis) (ratio : ℚ)
    (overlay : Bool) (data : Nat → α) (seg_data : Int → α) :
    List (α × Option α × Int) :=
  (List.range (shape_along r a)).map (fun i =>
    (data i,
     if overlay then some (seg_data (int_trunc ((i : ℚ) * ratio))) else none,
     axis_lo r a + (i : Int)))

inductive Coords
  | real
  | voxels
deriving DecidableEq

inductive Shader
  | principled
  | shadeless
deriving DecidableEq

/-- The arguments of one `cloudblender.fetch_slices` operator invocation. -/
structure FetchSlicesArgs where
  x1 : Int
  x2 : Int
  y1 : Int
  y2 : Int
  z1 : Int
  z2 : Int
  mip : Nat
  blend_seg : Bool
  coords : Coords
  shader : Shader
  overwrite_material : Bool
  axis : Axis
deriving DecidableEq

def FetchSlicesArgs.range (c : FetchSlicesArgs) : VoxelRange :=
  ⟨c.x1, c.x2, c.y1, c.y2, c.z1, c.z2⟩

/-- Embedding of `CLOUDBLENDER_OP_fetch_cube.execute` (lines 902-998) as the
ordered trace of the six `fetch_slices` calls it issues: top, bottom, left,
right, front, back. -/
def fetch_cube_execute (x1 x2 y1 y2 z1 z2 : Int) (mip : Nat) (blend_seg : Bool)
    (coords : Coords) (shader : Shader) (overwrite_material : Bool) :
    List FetchSlicesArgs :=
  [⟨x1, x2, y1, y2, z1, z1 + 1, mip, blend_seg, coords, shader, overwrite_material, Axis.z⟩,
   ⟨x1, x2, y1, y2, z2 - 1, z2, mip, blend_seg, coords, shader, overwrite_material, Axis.z⟩,
   ⟨x1, x2, y1, y1 + 1, z1, z2, mip, blend_seg, coords, shader, overwrite_material, Axis.y⟩,
   ⟨x1, x2, y2 - 1, y2, z1, z2, mip, blend_seg, coords, shader, overwrite_material, Axis.y⟩,
   ⟨x1, x1 + 1, y1, y2, z1, z2, mip, blend_seg, coords, shader, overwrite_material, Axis.x⟩,
   ⟨x2 - 1, x2, y1, y2, z1, z2, mip, blend_seg, coords, shader, overwrite_material, Axis.x⟩]

/-- The custom properties recorded on a slice-plane object.  `mip_old` is
optional because `create_image_plane` never writes it; only the update pass
does (line 1183). -/
structure SlabProps where
  mip : Nat
  axis : Axis
  depth : Int
  shader : Shader
  show_seg : Bool
  x1 : Int
  x2 : Int
  y1 : Int
  y2 : Int
  z1 : Int
  z2 : Int
  mip_old : Option Nat
deriving DecidableEq

/-- Embedding of the property block written by
`fetch_slices.create_image_plane` (lines 757-768): a freshly created plane
records mip, axis, depth, shader, overlay flag and the six voxel bounds, and
no `mip_old`. -/
def create_image_plane_props (mip : Nat) (axis : Axis) (depth : Int)
    (shader : Shader) (show_seg : Bool) (r : VoxelRange) : SlabProps :=
  ⟨mip, axis, depth, shader, show_seg, r.x1, r.x2, r.y1, r.y2, r.z1, r.z2, none⟩

/-- Embedding of the skip test of `update_images.execute` (lines 1076-1086):
the re-fetch for an object is skipped exactly when all six recomputed bounds
equal the recorded ones and `self.mip` (itself read back from the object's
`mip` property) equals the recorded `mip_old`. -/
def no_update_needed (ob : SlabProps) (recomputed : VoxelRange) (mip : Nat) : Bool :=
  (recomputed.x1 == ob.x1) && (recomputed.x2 == ob.x2) &&
  (recomputed.y1 == ob.y1) && (recomputed.y2 == ob.y2) &&
  (recomputed.z1 == ob.z1) && (recomputed.z2 == ob.z2) &&
  (ob.mip_old == some mip)

theorem widen_bound_lt (lo hi : Int) (h : lo ≤ hi) : lo < widen_bound lo hi := by
  unfold widen_bound
  split <;> omega

theorem fdiv_roundtrip (p r : Int) (hr : 0 < r) :
    0 ≤ p - Int.fdiv p r * r ∧ p - Int.fdiv p r * r < r := by
  rw [Int.fdiv_eq_ediv _ (le_of_lt hr)]
  have h1 := Int.emod_nonneg p (ne_of_gt hr)
  have h2 := Int.emod_lt_of_pos p hr
  rw [Int.emod_def] at h1 h2
  constructor <;> nlinarith [h1, h2]

theorem except_bind_ok {eps alpha beta : Type} (a : alpha) (f : alpha → Except eps beta) :
    (Except.ok a : Except eps alpha) >>= f = f a := rfl

theorem except_bind_error {eps alpha beta : Type} (e : eps) (f : alpha → Except eps beta) :
    (Except.error e : Except eps alpha) >>= f = Except.error e := rfl

theorem except_pure_eq {eps alpha : Type} (a : alpha) :
    (pure a : Except eps alpha) = Except.ok a := rfl

theorem align_range_of_ratios_ne (src : VoxelRange) (src_res dst_res : Resolution)
    (hx : dst_res.x / src_res.x ≠ 0) (hy : dst_res.y / src_res.y ≠ 0)
    (hz : dst_res.z / src_res.z ≠ 0) :
    align_range src src_res dst_res =
      Except.ok (widen_range
        ⟨⌊(src.x1 : ℚ) / (dst_res.x / src_res.x)⌋,
         ⌊(src.x2 : ℚ) / (dst_res.x / src_res.x)⌋,
         ⌊(src.y1 : ℚ) / (dst_res.y / src_res.y)⌋,
         ⌊(src.y2 : ℚ) / (dst_res.y / src_res.y)⌋,
         ⌊(src.z1 : ℚ) / (dst_res.z / src_res.z)⌋,
         ⌊(src.z2 : ℚ) / (dst_res.z / src_res.z)⌋⟩) := by
  simp [align_range, floor_div_ratio, hx, hy, hz, except_bind_ok, except_bind_error,
    except_pure_eq]

theorem align_range_error_of_ratio_zero (src : VoxelRange)
    (src_res dst_res : Resolution)
    (h : dst_res.x / src_res.x = 0 ∨ dst_res.y / src_res.y = 0 ∨
      dst_res.z / src_res.z = 0) :
    align_range src src_res dst_res = Except.error AlignError.conversionError := by
  rcases h with h | h | h <;>
    · simp only [align_range, floor_div_ratio, h]
      by_cases hx : dst_res.x / src_res.x = 0 <;>
        by_cases hy : dst_res.y / src_res.y = 0 <;>
          by_cases hz : dst_res.z / src_res.z = 0 <;>
            simp [hx, hy, hz, h, except_bind_ok, except_bind_error, except_pure_eq]

/-- C1: for every 32-bit seed and 64-bit segmentation ID,
`rgb_from_segment_id` returns the HSV-to-RGB conversion of
`(hue = c0, saturation = 1/2 + c1/2, value = 1)` where `c0` and `c1` are the
two low bytes of `h2 = mix32 (mix32 seed low32) high32`, with `mix32` the
exact avalanche mix described by the spec, bit for bit — so the color is a
pure function of `(seed, id)`, stable across runs. -/
theorem C1_rgb_from_segment_id_matches_spec (seed id : Nat)
    (hseed : seed < 2 ^ 32) (hid : id < 2 ^ 64) :
    rgb_from_segment_id seed id = spec_color_for_id seed id := by
  have hseed' : seed < 0x100000000 := by norm_num at hseed ⊢; exact hseed
  have h1 : hash_function seed id = spec_mix32 seed (id &&& 0xFFFFFFFF) := by
    rw [mask_eq, hash_function_mod_value]
    exact hash_function_eq_spec_mix32 seed _ hseed'
  have h2 : hash_function (hash_function seed id) (id >>> 32) =
      spec_mix32 (hash_function seed id) (id >>> 32) :=
    hash_function_eq_spec_mix32 _ _ (hash_function_lt seed id)
  simp only [rgb_from_segment_id, spec_color_for_id]
  rw [h2, h1]

theorem C1_witness :
    1234 < 2 ^ 32 ∧ 1099511627783 < 2 ^ 64 ∧
      rgb_from_segment_id 1234 1099511627783 = spec_color_for_id 1234 1099511627783 :=
  ⟨by norm_num, by norm_num,
    C1_rgb_from_segment_id_matches_spec 1234 1099511627783 (by norm_num) (by norm_num)⟩

/-- C2 counterexample: the per-ID colorizer `rgb_from_segment_id` applied to
segmentation ID 0 (seed 1234) does not return black — its HSV value is
fixed at 1, so one RGB component is 1.  The black special case for ID 0 is
not in this function. -/
theorem C2_counterexample : rgb_from_segment_id 1234 0 ≠ ((0 : ℚ), 0, 0) :=
  rgb_from_segment_id_ne_black 1234 0

/-- C2 (amended): the black special case for ID 0 lives in the block
colorizer `seg_ids_to_colors`, whose colormap forces the entry for ID 0 to
black: for every seed and block, every voxel holding ID 0 is mapped to pure
black regardless of the hash value. -/
theorem C2_seg_zero_black (seed : Nat) (seg : SegBlock)
    (out : List (List (List Rgb))) (hout : seg_ids_to_colors seg seed = some out)
    (i j k : Nat) (hv : blockGet seg i j k = some 0) :
    blockGet out i j k = some ((0 : ℚ), 0, 0) := by
  have h := seg_ids_to_colors_eq_prog seg seed
  rw [hout] at h
  obtain rfl := Option.some.inj h
  rw [blockGet_mapBlock, hv]
  simp only [Option.map_some']
  rw [prog_color_zero]

theorem C2_witness :
    blockGet ([[[0]]] : SegBlock) 0 0 0 = some 0 ∧
      blockGet [[[((0 : ℚ), (0 : ℚ), (0 : ℚ))]]] 0 0 0 = some ((0 : ℚ), 0, 0) :=
  ⟨rfl, C2_seg_zero_black 77 [[[0]]] [[[((0 : ℚ), (0 : ℚ), (0 : ℚ))]]]
    (by rfl) 0 0 0 rfl⟩

theorem int_trunc_eq_floor (q : ℚ) (hq : 0 ≤ q) : int_trunc q = ⌊q⌋ := by
  rw [Rat.floor_def]
  exact Int.tdiv_eq_ediv (Rat.num_nonneg.mpr hq) (by positivity)

theorem hsv_small_hue (h s : ℚ) (hs : s ≠ 0) (h0 : 0 ≤ h) (h6 : h * 6 < 1) :
    hsv_to_rgb h s 1 = (1, 1 - s * (1 - h * 6), 1 - s) := by
  have hi : int_trunc (h * 6) = 0 := by
    rw [int_trunc_eq_floor _ (by positivity)]
    rw [Int.floor_eq_zero_iff]
    exact ⟨by positivity, h6⟩
  simp only [hsv_to_rgb, if_neg hs, hi]
  norm_num

theorem rgb_a_form : rgb_from_segment_id 1234 9007199254740992 =
    hsv_to_rgb (((37 : Nat) : ℚ) / 255)
      (1/2 + 1/2 * (((52 : Nat) : ℚ) / 255)) 1 := rfl

theorem rgb_b_form : rgb_from_segment_id 1234 9007199254740993 =
    hsv_to_rgb (((22 : Nat) : ℚ) / 255)
      (1/2 + 1/2 * (((156 : Nat) : ℚ) / 255)) 1 := rfl

/-- The two smallest uint64 IDs that collide under the float64 cast hash to
different colors (their saturation bytes differ, so the blue components of
the two HSV conversions differ). -/
theorem rgb_collision_ne :
    rgb_from_segment_id 1234 9007199254740992 ≠
      rgb_from_segment_id 1234 9007199254740993 := by
  rw [rgb_a_form, rgb_b_form,
    hsv_small_hue _ _ (by norm_num) (by positivity) (by norm_num),
    hsv_small_hue _ _ (by norm_num) (by positivity) (by norm_num)]
  intro hEq
  have h3 := congrArg (fun c : ℚ × ℚ × ℚ => c.2.2) hEq
  norm_num at h3

/-- Evaluation of the block colorizer on the two-voxel block holding the
colliding IDs 2^53 and 2^53 + 1: both cast to the float64 value 2^53, so
the remap gives both voxels the single surviving colormap entry — the color
of 2^53 + 1, the later dict insertion. -/
theorem seg_collision_eval :
    seg_ids_to_colors [[[9007199254740992, 9007199254740993]]] 1234 =
      some [[[rgb_from_segment_id 1234 9007199254740993,
              rgb_from_segment_id 1234 9007199254740993]]] := by rfl

/-- C3 counterexample: on the block holding the two uint64 IDs 2^53 and
2^53 + 1 — which the `astype(float)` cast merges into one float64 value —
the per-channel remap output differs from the naive per-voxel mapping: both
voxels receive one merged color while the naive mapping assigns the two
distinct hash colors. -/
theorem C3_counterexample :
    seg_ids_to_colors [[[9007199254740992, 9007199254740993]]] 1234 ≠
      some (mapBlock (voxel_color 1234)
        [[[9007199254740992, 9007199254740993]]]) := by
  rw [seg_collision_eval]
  intro hEq
  have h1 := Option.some.inj hEq
  have h2 : blockGet [[[rgb_from_segment_id 1234 9007199254740993,
      rgb_from_segment_id 1234 9007199254740993]]] 0 0 0 =
      blockGet (mapBlock (voxel_color 1234)
        [[[9007199254740992, 9007199254740993]]]) 0 0 0 := by rw [h1]
  have h3 : some (rgb_from_segment_id 1234 9007199254740993) =
      some (voxel_color 1234 9007199254740992) := h2
  have h4 := Option.some.inj h3
  simp only [voxel_color] at h4
  rw [if_neg (by norm_num)] at h4
  exact rgb_collision_ne h4.symm

/-- C3 (amended): for every block whose IDs are all below 2^53 — exactly
representable in float64, so the `astype(float)` cast merges nothing —
`seg_ids_to_colors`, i.e. three single-pass per-channel remaps over the
cast block stacked back together, equals the naive per-voxel mapping
through the colormap built from the block's distinct IDs (ID 0 forced to
black, any other ID its hash color), and the result has the same spatial
shape with one RGB triple per voxel.  For IDs at or above 2^53 the cast can
merge distinct IDs and the equivalence fails. -/
theorem C3_seg_ids_to_colors_refines_naive (seg : SegBlock) (seed : Nat)
    (hsmall : ∀ v ∈ blockVoxels seg, v < 2 ^ 53) :
    seg_ids_to_colors seg seed = some (mapBlock (voxel_color seed) seg) ∧
      blockShape (mapBlock (voxel_color seed) seg) = blockShape seg := by
  constructor
  · rw [seg_ids_to_colors_eq_prog]
    congr 1
    refine mapBlock_congr_voxels _ _ seg (fun v hv => ?_)
    exact prog_color_small (uniqueIds seg) seed v (mem_uniqueIds.mpr hv)
      (fun w hw => hsmall w (mem_uniqueIds.mp hw))
  · simp [blockShape, mapBlock, List.map_map, Function.comp]

theorem C3_witness :
    (∀ v ∈ blockVoxels ([[[0, 1], [2, 3]]] : SegBlock), v < 2 ^ 53) ∧
      seg_ids_to_colors [[[0, 1], [2, 3]]] 1234 =
        some (mapBlock (voxel_color 1234) [[[0, 1], [2, 3]]]) :=
  ⟨by decide,
    (C3_seg_ids_to_colors_refines_naive [[[0, 1], [2, 3]]] 1234 (by decide)).1⟩

/-- C4: for a non-degenerate source range and strictly positive source and
destination resolutions, `align_range` succeeds and the aligned
(floor-divided, then widened) range is non-degenerate on every axis. -/
theorem C4_align_range_nondegenerate (src : VoxelRange)
    (src_res dst_res : Resolution) (hsrc : src.nondeg)
    (h1 : src_res.pos) (h2 : dst_res.pos) :
    ∃ out, align_range src src_res dst_res = Except.ok out ∧ out.nondeg := by
  have hrx : (0 : ℚ) < dst_res.x / src_res.x := div_pos h2.1 h1.1
  have hry : (0 : ℚ) < dst_res.y / src_res.y := div_pos h2.2.1 h1.2.1
  have hrz : (0 : ℚ) < dst_res.z / src_res.z := div_pos h2.2.2 h1.2.2
  rw [align_range_of_ratios_ne src src_res dst_res
    (ne_of_gt hrx) (ne_of_gt hry) (ne_of_gt hrz)]
  refine ⟨_, rfl, ?_⟩
  unfold VoxelRange.nondeg widen_range
  refine ⟨widen_bound_lt _ _ ?_, widen_bound_lt _ _ ?_, widen_bound_lt _ _ ?_⟩
  · exact Int.floor_le_floor
      ((div_le_div_iff_of_pos_right hrx).mpr (by exact_mod_cast le_of_lt hsrc.1))
  · exact Int.floor_le_floor
      ((div_le_div_iff_of_pos_right hry).mpr (by exact_mod_cast le_of_lt hsrc.2.1))
  · exact Int.floor_le_floor
      ((div_le_div_iff_of_pos_right hrz).mpr (by exact_mod_cast le_of_lt hsrc.2.2))

theorem C4_witness :
    (⟨1000, 1008, 2000, 2008, 500, 501⟩ : VoxelRange).nondeg ∧
      (⟨8, 8, 40⟩ : Resolution).pos ∧ (⟨16, 16, 40⟩ : Resolution).pos ∧
      ∃ out, align_range ⟨1000, 1008, 2000, 2008, 500, 501⟩ ⟨8, 8, 40⟩ ⟨16, 16, 40⟩ =
        Except.ok out ∧ out.nondeg :=
  ⟨by norm_num [VoxelRange.nondeg], by norm_num [Resolution.pos],
    by norm_num [Resolution.pos],
    C4_align_range_nondegenerate _ _ _ (by norm_num [VoxelRange.nondeg])
      (by norm_num [Resolution.pos]) (by norm_num [Resolution.pos])⟩

/-- C5: contrary to the claim, a slab whose recomputed range and level are
identical to those recorded at creation is still re-fetched: the skip test
of `update_images` requires `self.mip == ob.get("mip_old")`, but
`create_image_plane` never records `mip_old`, so the test is false for
every freshly created slab — even with an identical recomputed range and
the very level stored on the object. -/
theorem C5_fresh_slab_always_refetched (mip : Nat) (axis : Axis) (depth : Int)
    (shader : Shader) (show_seg : Bool) (r recomputed : VoxelRange) :
    no_update_needed (create_image_plane_props mip axis depth shader show_seg r)
      recomputed mip = false := by
  simp [no_update_needed, create_image_plane_props]

/-- C6 counterexample: with destination resolution `(-1, 1, 1)` — a
component ≤ 0 — the alignment does not fail at all: it silently returns an
(inverted) range, so no error of any kind is raised for a negative
component, contradicting the claim that any component ≤ 0 fails. -/
theorem C6_counterexample :
    align_range ⟨0, 2, 0, 2, 0, 2⟩ ⟨1, 1, 1⟩ ⟨-1, 1, 1⟩ =
      Except.ok ⟨0, -2, 0, 2, 0, 2⟩ := by
  rw [align_range_of_ratios_ne _ _ _ (by norm_num) (by norm_num) (by norm_num)]
  norm_num [widen_range, widen_bound]

/-- C6 (amended): the alignment performs no resolution validation and no
`IncompatibleResolution` error exists in the code.  Given positive source
resolutions, the only failure is the NaN-to-int conversion error raised
when a destination component is exactly 0 (zero ratio); for any nonzero —
including negative — destination components, the alignment succeeds. -/
theorem C6_align_succeeds_iff_nonzero (src : VoxelRange)
    (src_res dst_res : Resolution) (h1 : src_res.pos) :
    (∃ out, align_range src src_res dst_res = Except.ok out) ↔
      dst_res.x ≠ 0 ∧ dst_res.y ≠ 0 ∧ dst_res.z ≠ 0 := by
  have hx : dst_res.x / src_res.x = 0 ↔ dst_res.x = 0 := by
    rw [div_eq_zero_iff]
    simp [ne_of_gt h1.1]
  have hy : dst_res.y / src_res.y = 0 ↔ dst_res.y = 0 := by
    rw [div_eq_zero_iff]
    simp [ne_of_gt h1.2.1]
  have hz : dst_res.z / src_res.z = 0 ↔ dst_res.z = 0 := by
    rw [div_eq_zero_iff]
    simp [ne_of_gt h1.2.2]
  constructor
  · rintro ⟨out, hout⟩
    refine ⟨fun h0 => ?_, fun h0 => ?_, fun h0 => ?_⟩
    · rw [align_range_error_of_ratio_zero src src_res dst_res
        (Or.inl (hx.mpr h0))] at hout
      exact Except.noConfusion hout
    · rw [align_range_error_of_ratio_zero src src_res dst_res
        (Or.inr (Or.inl (hy.mpr h0)))] at hout
      exact Except.noConfusion hout
    · rw [align_range_error_of_ratio_zero src src_res dst_res
        (Or.inr (Or.inr (hz.mpr h0)))] at hout
      exact Except.noConfusion hout
  · rintro ⟨ha, hb, hc⟩
    exact ⟨_, align_range_of_ratios_ne src src_res dst_res
      (fun h => ha (hx.mp h)) (fun h => hb (hy.mp h)) (fun h => hc (hz.mp h))⟩

theorem C6_witness :
    (⟨1, 1, 1⟩ : Resolution).pos ∧
      ((∃ out, align_range ⟨0, 1, 0, 1, 0, 1⟩ ⟨1, 1, 1⟩ ⟨2, 2, 2⟩ = Except.ok out) ↔
        (2 : ℚ) ≠ 0 ∧ (2 : ℚ) ≠ 0 ∧ (2 : ℚ) ≠ 0) :=
  ⟨by norm_num [Resolution.pos],
    C6_align_succeeds_iff_nonzero ⟨0, 1, 0, 1, 0, 1⟩ ⟨1, 1, 1⟩ ⟨2, 2, 2⟩
      (by norm_num [Resolution.pos])⟩

/-- C7: `to_voxels` (floor division per axis) followed by `to_physical`
(elementwise multiplication) recovers the physical coordinate within one
resolution unit per axis: the per-axis loss is non-negative and strictly
below that axis's resolution. -/
theorem C7_to_voxels_roundtrip (p r : Int × Int × Int)
    (hr : 0 < r.1 ∧ 0 < r.2.1 ∧ 0 < r.2.2) :
    (0 ≤ p.1 - (to_physical (to_voxels p r) r).1 ∧
      p.1 - (to_physical (to_voxels p r) r).1 < r.1) ∧
    (0 ≤ p.2.1 - (to_physical (to_voxels p r) r).2.1 ∧
      p.2.1 - (to_physical (to_voxels p r) r).2.1 < r.2.1) ∧
    (0 ≤ p.2.2 - (to_physical (to_voxels p r) r).2.2 ∧
      p.2.2 - (to_physical (to_voxels p r) r).2.2 < r.2.2) :=
  ⟨fdiv_roundtrip p.1 r.1 hr.1, fdiv_roundtrip p.2.1 r.2.1 hr.2.1,
    fdiv_roundtrip p.2.2 r.2.2 hr.2.2⟩

theorem C7_witness :
    (0 < (8 : Int) ∧ 0 < (8 : Int) ∧ 0 < (40 : Int)) ∧
      (0 ≤ (100 : Int) - (to_physical (to_voxels (100, -7, 93) (8, 8, 40)) (8, 8, 40)).1 ∧
        (100 : Int) - (to_physical (to_voxels (100, -7, 93) (8, 8, 40)) (8, 8, 40)).1 < 8) :=
  ⟨by norm_num,
    (C7_to_voxels_roundtrip (100, -7, 93) (8, 8, 40) (by norm_num)).1⟩

/-- C8: building a slab for a region that is degenerate or exactly one voxel
thick along the slicing axis yields exactly one cross-section: after the
widening rule, the slice loop emits exactly one
(image slice, optional color slice, depth) triple. -/
theorem C8_single_slice {α : Type} (r : VoxelRange) (a : Axis) (ratio : ℚ)
    (overlay : Bool) (data : Nat → α) (seg_data : Int → α)
    (h : axis_hi r a = axis_lo r a ∨ axis_hi r a = axis_lo r a + 1) :
    (slice_triples (widen_range r) a ratio overlay data seg_data).length = 1 := by
  unfold slice_triples
  rw [List.length_map, List.length_range]
  cases a <;> rcases h with h | h <;>
    simp only [shape_along, widen_range, widen_bound, axis_lo, axis_hi] at h ⊢ <;>
    split_ifs <;> omega

theorem C8_witness :
    (axis_hi ⟨0, 0, 0, 5, 0, 5⟩ Axis.x = axis_lo ⟨0, 0, 0, 5, 0, 5⟩ Axis.x ∨
      axis_hi ⟨0, 0, 0, 5, 0, 5⟩ Axis.x = axis_lo ⟨0, 0, 0, 5, 0, 5⟩ Axis.x + 1) ∧
    (slice_triples (widen_range ⟨0, 0, 0, 5, 0, 5⟩) Axis.x 1 true
      (fun _ => (0 : Nat)) (fun _ => (0 : Nat))).length = 1 :=
  ⟨Or.inl rfl,
    C8_single_slice ⟨0, 0, 0, 5, 0, 5⟩ Axis.x 1 true (fun _ => (0 : Nat))
      (fun _ => (0 : Nat)) (Or.inl rfl)⟩

/-- C9 counterexample: on a block holding the two IDs 2^53 and 2^53 + 1,
which the float64 cast merges, the voxel carrying the nonzero ID 2^53
receives the merged remap color — the hash color of 2^53 + 1 — which is not
`rgb_from_segment_id 1234 (2^53)`, the color the color-neurons operation
gives that ID's mesh.  So the two paths disagree on this nonzero ID. -/
theorem C9_counterexample :
    seg_ids_to_colors [[[9007199254740992, 9007199254740993]]] 1234 =
      some [[[rgb_from_segment_id 1234 9007199254740993,
              rgb_from_segment_id 1234 9007199254740993]]] ∧
    blockGet ([[[9007199254740992, 9007199254740993]]] : SegBlock) 0 0 0 =
      some 9007199254740992 ∧
    blockGet [[[rgb_from_segment_id 1234 9007199254740993,
                rgb_from_segment_id 1234 9007199254740993]]] 0 0 0 ≠
      some (color_neurons_color 9007199254740992) := by
  refine ⟨seg_collision_eval, rfl, ?_⟩
  intro hEq
  have h1 : rgb_from_segment_id 1234 9007199254740993 =
      color_neurons_color 9007199254740992 := Option.some.inj hEq
  exact rgb_collision_ne h1.symm

/-- C9 (amended): for every nonzero segmentation ID in a block whose IDs
are all below 2^53 (exactly representable in float64), the color the
color-neurons operation assigns to a neuron mesh — `rgb_from_segment_id`
with the fixed seed 1234 — equals the color `seg_ids_to_colors` (invoked by
both colorization call sites with its default seed 1234) assigns to any
voxel carrying that ID, so a neuron mesh and its segmentation overlay share
one color.  For IDs at or above 2^53 the float64 cast can merge distinct
IDs and the voxel color can differ from the per-ID hash color. -/
theorem C9_neuron_color_matches_seg (id : Nat) (hid : id ≠ 0) (seg : SegBlock)
    (hsmall : ∀ v ∈ blockVoxels seg, v < 2 ^ 53)
    (out : List (List (List Rgb))) (hout : seg_ids_to_colors seg 1234 = some out)
    (i j k : Nat) (hv : blockGet seg i j k = some id) :
    blockGet out i j k = some (color_neurons_color id) := by
  have h := seg_ids_to_colors_eq_prog seg 1234
  rw [hout] at h
  obtain rfl := Option.some.inj h
  rw [blockGet_mapBlock, hv]
  simp only [Option.map_some']
  rw [prog_color_small (uniqueIds seg) 1234 id
    (mem_uniqueIds.mpr (mem_blockVoxels_of_blockGet hv))
    (fun w hw => hsmall w (mem_uniqueIds.mp hw))]
  simp [voxel_color, color_neurons_color, hid]

theorem C9_witness :
    (1 : Nat) ≠ 0 ∧ (∀ v ∈ blockVoxels ([[[1]]] : SegBlock), v < 2 ^ 53) ∧
      blockGet ([[[1]]] : SegBlock) 0 0 0 = some 1 ∧
      blockGet [[[rgb_from_segment_id 1234 1]]] 0 0 0 =
        some (color_neurons_color 1) :=
  ⟨by decide, by decide, rfl,
    C9_neuron_color_matches_seg 1 (by decide) [[[1]]] (by decide)
      [[[rgb_from_segment_id 1234 1]]] (by rfl) 0 0 0 rfl⟩

/-- C10: the fetch-cube composition issues exactly six slab builds — two
z-axis slabs covering the z1 and z2 faces, two y-axis slabs for the y1 and
y2 faces, two x-axis slabs for the x1 and x2 faces — each exactly one voxel
thick along its face axis, spanning the full requested extent along the
other two axes, and all forwarding the same mip level, coordinate mode,
shader and segmentation-overlay flag. -/
theorem C10_fetch_cube_six_faces (x1 x2 y1 y2 z1 z2 : Int) (mip : Nat)
    (blend_seg : Bool) (coords : Coords) (shader : Shader) (ow : Bool) :
    (fetch_cube_execute x1 x2 y1 y2 z1 z2 mip blend_seg coords shader ow).length = 6 ∧
    fetch_cube_execute x1 x2 y1 y2 z1 z2 mip blend_seg coords shader ow =
      [⟨x1, x2, y1, y2, z1, z1 + 1, mip, blend_seg, coords, shader, ow, Axis.z⟩,
       ⟨x1, x2, y1, y2, z2 - 1, z2, mip, blend_seg, coords, shader, ow, Axis.z⟩,
       ⟨x1, x2, y1, y1 + 1, z1, z2, mip, blend_seg, coords, shader, ow, Axis.y⟩,
       ⟨x1, x2, y2 - 1, y2, z1, z2, mip, blend_seg, coords, shader, ow, Axis.y⟩,
       ⟨x1, x1 + 1, y1, y2, z1, z2, mip, blend_seg, coords, shader, ow, Axis.x⟩,
       ⟨x2 - 1, x2, y1, y2, z1, z2, mip, blend_seg, coords, shader, ow, Axis.x⟩] ∧
    ∀ c ∈ fetch_cube_execute x1 x2 y1 y2 z1 z2 mip blend_seg coords shader ow,
      c.mip = mip ∧ c.blend_seg = blend_seg ∧ c.coords = coords ∧
        c.shader = shader ∧ axis_hi c.range c.axis = axis_lo c.range c.axis + 1 := by
  refine ⟨rfl, rfl, ?_⟩
  intro c hc
  simp only [fetch_cube_execute, List.mem_cons, List.not_mem_nil, or_false] at hc
  rcases hc with rfl | rfl | rfl | rfl | rfl | rfl <;>
    refine ⟨rfl, rfl, rfl, rfl, ?_⟩ <;>
      simp only [FetchSlicesArgs.range, axis_hi, axis_lo] <;> omega

theorem C10_witness :
    ((⟨0, 10, 0, 10, 0, 1, 2, true, Coords.voxels, Shader.principled, false,
        Axis.z⟩ : FetchSlicesArgs) ∈
      fetch_cube_execute 0 10 0 10 0 10 2 true Coords.voxels Shader.principled false) ∧
      (⟨0, 10, 0, 10, 0, 1, 2, true, Coords.voxels, Shader.principled, false,
        Axis.z⟩ : FetchSlicesArgs).mip = 2 :=
  ⟨by decide,
    ((C10_fetch_cube_six_faces 0 10 0 10 0 10 2 true Coords.voxels
      Shader.principled false).2.2 _ (by decide)).1⟩

end Cloudblender
